import Mathlib

/-!
Shallow embedding of `src/relay/pass/let_list.h` (class `LetList`):
a binding-sequence builder that records let bindings via `Push` and wraps a
body expression in nested lets via `Get`.  The C++ `CHECK(!used_)` macro is a
fatal assertion; we model a failed `CHECK` as `Option.none`.  C++ node identity
(pointer identity of `VarNode`) is modelled by an `id : Nat` field allocated
from a counter that is threaded explicitly through the operations that call
`VarNode::make`.
-/

namespace LetListModel

/-- Model of `tvm::relay::Type`.  A default-constructed `Type()` is a null
reference (absent type annotation); `mk n` stands for any concrete type. -/
inductive Ty where
  | null : Ty
  | mk : Nat → Ty
deriving DecidableEq, Repr

/-- Model of `tvm::relay::Var` (`VarNode`): node identity `id` (pointer
identity in C++), the textual `name_hint`, and the type annotation. -/
structure Var where
  id : Nat
  name_hint : String
  ty : Ty
deriving DecidableEq, Repr

/-- Model of `tvm::relay::Expr`: a variable reference, a let node
(`LetNode::make var value body`), or an opaque leaf standing for any other
expression form. -/
inductive Expr where
  | var : Var → Expr
  | letE : Var → Expr → Expr → Expr
  | atom : Nat → Expr
deriving DecidableEq, Repr

/-- Model of `VarNode::make(name_hint, ty)`: allocates a fresh node.  The
returned counter is the next free identity. -/
def VarNode.make (name_hint : String) (ty : Ty) (a : Nat) : Var × Nat :=
  (⟨a, name_hint, ty⟩, a + 1)

/-- The `LetList` class state: the vector `lets_` of bindings and the
`used_` flag. -/
structure LetList where
  lets_ : List (Var × Expr)
  used_ : Bool
deriving DecidableEq, Repr

/-- A default-constructed `LetList`: empty bindings, `used_ = false`. -/
def LetList.fresh : LetList := ⟨[], false⟩

/-- Model of `Var LetList::Push(Var pv, Expr expr)`: `CHECK(!used_)`, append the
binding, return `pv`. -/
def LetList.Push (ll : LetList) (pv : Var) (expr : Expr) : Option (Var × LetList) :=
  if ll.used_ then none
  else some (pv, { ll with lets_ := ll.lets_ ++ [(pv, expr)] })

/-- Model of `Var LetList::Push(Type ty, Expr expr)`: synthesize `VarNode::make("x", ty)`
and delegate to the explicit-variable `Push`. -/
def LetList.PushType (ll : LetList) (ty : Ty) (expr : Expr) (a : Nat) :
    Option (Var × LetList × Nat) :=
  let p := VarNode.make "x" ty a
  (ll.Push p.1 expr).map (fun q => (q.1, q.2, p.2))

/-- Model of `Var LetList::Push(Expr expr)`: delegate to the typed overload with a
default-constructed `Type()`. -/
def LetList.PushExpr (ll : LetList) (expr : Expr) (a : Nat) :
    Option (Var × LetList × Nat) :=
  ll.PushType Ty.null expr a

/-- Model of `Expr LetList::Get(const Expr& body)`: `CHECK(!used_)`, fold the bindings
from last to first around `body` (reverse iteration of `lets_`), set
`used_ = true`, return the wrapped expression. -/
def LetList.Get (ll : LetList) (body : Expr) : Option (Expr × LetList) :=
  if ll.used_ then none
  else
    some (ll.lets_.reverse.foldl (fun ret p => Expr.letE p.1 p.2 ret) body,
      { ll with used_ := true })

/-- Model of `static Expr LetList::With(F&& f)`: create a fresh `LetList`, run `f` on
it, and `Get` the returned body.  `f` receives the open builder and the
allocator counter; a failure inside `f` is `none`. -/
def LetList.With (f : LetList → Nat → Option (Expr × LetList × Nat)) (a : Nat) :
    Option (Expr × Nat) :=
  match f LetList.fresh a with
  | none => none
  | some (body, ll, a1) =>
    match ll.Get body with
    | none => none
    | some (r, _) => some (r, a1)

/-- Modelled from the spec (section 4.1, scoped convenience wrapper): "The
wrapper creates a fresh builder, invokes the operation with it, then calls
Get on the operation's returned body, and returns the finalized nested-let
expression"; any failure inside the operation propagates unchanged. -/
def With_specModel (f : LetList → Nat → Option (Expr × LetList × Nat)) (a : Nat) :
    Option (Expr × Nat) :=
  (f LetList.fresh a).bind (fun r => (r.2.1.Get r.1).map (fun g => (g.1, r.2.2)))

/-- Push a whole list of explicit bindings in order. -/
def pushAll : List (Var × Expr) → LetList → Option LetList
  | [], ll => some ll
  | b :: bs, ll => (ll.Push b.1 b.2).bind (fun q => pushAll bs q.2)

/-- The nested-let expression with the head binding outermost and `body`
innermost. -/
def nestLets (bs : List (Var × Expr)) (body : Expr) : Expr :=
  bs.foldr (fun p ret => Expr.letE p.1 p.2 ret) body

/-- Strip `k` outermost let nodes (stops early on a non-let). -/
def peel : Nat → Expr → Expr
  | 0, e => e
  | k + 1, Expr.letE _ _ rest => peel k rest
  | _ + 1, e => e

/-- The binding of the outermost let node, if the expression is a let. -/
def headLet : Expr → Option (Var × Expr)
  | Expr.letE v b _ => some (v, b)
  | _ => none

/-- Perform `n` successive anonymous untyped pushes, with `es k` the
expression supplied to the `k`-th push; returns the synthesized variables in
push order. -/
def pushAnonSeq (es : Nat → Expr) : Nat → LetList → Nat → Option (List Var × LetList × Nat)
  | 0, ll, a => some ([], ll, a)
  | Nat.succ n, ll, a =>
    (ll.PushExpr (es 0) a).bind fun q =>
      (pushAnonSeq (fun i => es (i + 1)) n q.2.1 q.2.2).map fun r =>
        (q.1 :: r.1, r.2.1, r.2.2)

/-- The variable synthesized by an anonymous untyped push at allocator `i`. -/
def anonVar (i : Nat) : Var := ⟨i, "x", Ty.null⟩

/-- On an open builder, `Get body` succeeds and returns the bindings folded
around `body` with the first binding outermost, closing the builder. -/
theorem LetList.Get_open (ll : LetList) (body : Expr) (h : ll.used_ = false) :
    ll.Get body = some (nestLets ll.lets_ body, { ll with used_ := true }) := by
  simp [LetList.Get, h, nestLets, List.foldl_reverse]

/-- On an open builder, `Push` succeeds, appends, and keeps the builder open. -/
theorem LetList.Push_open (ll : LetList) (v : Var) (e : Expr) (h : ll.used_ = false) :
    ll.Push v e = some (v, ⟨ll.lets_ ++ [(v, e)], false⟩) := by
  simp [LetList.Push, h]

/-- Lemma: `pushAll` on an open builder appends the whole list and keeps it open. -/
theorem pushAll_open (bs : List (Var × Expr)) (ll : LetList) (h : ll.used_ = false) :
    pushAll bs ll = some ⟨ll.lets_ ++ bs, false⟩ := by
  induction bs generalizing ll with
  | nil =>
    cases ll
    simp_all [pushAll]
  | cons b bs ih =>
    rw [pushAll, LetList.Push_open ll b.1 b.2 h]
    simp [ih ⟨ll.lets_ ++ [(b.1, b.2)], false⟩ rfl]

/-- A caller-supplied operation that always fails. -/
def fNone : LetList → Nat → Option (Expr × LetList × Nat) := fun _ _ => none

/-- C5: for every body expression, calling `Get body` on a freshly created
builder with zero pushed bindings returns `body` itself, with no let node
wrapped around it. -/
theorem C5_get_empty_returns_body (body : Expr) :
    LetList.fresh.Get body = some (body, ⟨[], true⟩) := rfl

/-- C8: for every expression, the untyped anonymous `Push` returns the same
result and has the same effect as the typed anonymous `Push` applied to the
default (absent) type annotation. -/
theorem C8_untyped_push_eq_typed_null (e : Expr) (ll : LetList) (a : Nat) :
    ll.PushExpr e a = ll.PushType Ty.null e a := rfl

/-- C10: `Get` on a builder with zero pushed bindings still closes it, so on
the resulting builder every `Push` overload and `Get` fail. -/
theorem C10_empty_get_still_closes (body body2 : Expr) (v : Var) (e e2 e3 : Expr)
    (ty : Ty) (a a3 : Nat) :
    LetList.fresh.Get body = some (body, ⟨[], true⟩) ∧
    (⟨[], true⟩ : LetList).used_ = true ∧
    (⟨[], true⟩ : LetList).Push v e = none ∧
    (⟨[], true⟩ : LetList).PushType ty e2 a = none ∧
    (⟨[], true⟩ : LetList).PushExpr e3 a3 = none ∧
    (⟨[], true⟩ : LetList).Get body2 = none :=
  ⟨rfl, rfl, rfl, rfl, rfl, rfl⟩

/-- C3: after a successful `Get`, every `Push` overload on the resulting
builder fails (returns `none`, modelling the fatal `CHECK` failure); nothing
is appended. -/
theorem C3_push_after_get_fails (ll : LetList) (body r : Expr) (ll2 : LetList)
    (v : Var) (e e2 e3 : Expr) (ty : Ty) (a a3 : Nat)
    (h : ll.Get body = some (r, ll2)) :
    ll2.Push v e = none ∧ ll2.PushType ty e2 a = none ∧ ll2.PushExpr e3 a3 = none := by
  have hu : ll2.used_ = true := by
    rw [LetList.Get] at h
    cases hc : ll.used_ with
    | true => simp [hc] at h
    | false =>
      simp [hc] at h
      rw [← h.2]
  refine ⟨?_, ?_, ?_⟩ <;>
    simp [LetList.Push, LetList.PushType, LetList.PushExpr, hu]

/-- Witness for C3 at a concrete closed builder. -/
theorem C3_push_after_get_fails_witness :
    (⟨[], true⟩ : LetList).Push (anonVar 0) (Expr.atom 1) = none ∧
    (⟨[], true⟩ : LetList).PushType Ty.null (Expr.atom 1) 5 = none ∧
    (⟨[], true⟩ : LetList).PushExpr (Expr.atom 1) 5 = none :=
  C3_push_after_get_fails LetList.fresh (Expr.atom 0) (Expr.atom 0) ⟨[], true⟩
    (anonVar 0) (Expr.atom 1) (Expr.atom 1) (Expr.atom 1) Ty.null 5 5 rfl

/-- C4: on every open builder the first `Get` succeeds, and a second `Get` on
the resulting builder fails. -/
theorem C4_second_get_fails (ll : LetList) (body body2 : Expr) (h : ll.used_ = false) :
    ∃ r ll2, ll.Get body = some (r, ll2) ∧ ll2.Get body2 = none := by
  refine ⟨nestLets ll.lets_ body, { ll with used_ := true },
    LetList.Get_open ll body h, ?_⟩
  simp [LetList.Get]

/-- Witness for C4 at a fresh builder. -/
theorem C4_second_get_fails_witness :
    ∃ r ll2, LetList.fresh.Get (Expr.atom 0) = some (r, ll2) ∧
      ll2.Get (Expr.atom 1) = none :=
  C4_second_get_fails LetList.fresh (Expr.atom 0) (Expr.atom 1) rfl

/-- C7: `Push v e` on an open builder returns exactly `v`, appends the one
binding `(v, e)` at the end, increases the length by one, and leaves every
previously pushed binding unchanged. -/
theorem C7_push_frame (ll : LetList) (v : Var) (e : Expr) (h : ll.used_ = false) :
    ∃ ll2, ll.Push v e = some (v, ll2) ∧
      ll2.lets_ = ll.lets_ ++ [(v, e)] ∧
      ll2.lets_.length = ll.lets_.length + 1 ∧
      (∀ k, k < ll.lets_.length → ll2.lets_.get? k = ll.lets_.get? k) ∧
      ll2.used_ = false := by
  refine ⟨⟨ll.lets_ ++ [(v, e)], false⟩, LetList.Push_open ll v e h, rfl, by simp, ?_, rfl⟩
  intro k hk
  simp [List.get?_eq_getElem?, List.getElem?_append_left hk]

/-- Witness for C7 at a concrete open builder. -/
theorem C7_push_frame_witness :
    ∃ ll2, (⟨[(anonVar 0, Expr.atom 0)], false⟩ : LetList).Push (anonVar 3) (Expr.atom 7)
        = some (anonVar 3, ll2) ∧
      ll2.lets_ = [(anonVar 0, Expr.atom 0)] ++ [(anonVar 3, Expr.atom 7)] ∧
      ll2.lets_.length = [(anonVar 0, Expr.atom 0)].length + 1 ∧
      (∀ k, k < [(anonVar 0, Expr.atom 0)].length →
        ll2.lets_.get? k = [(anonVar 0, Expr.atom 0)].get? k) ∧
      ll2.used_ = false :=
  C7_push_frame ⟨[(anonVar 0, Expr.atom 0)], false⟩ (anonVar 3) (Expr.atom 7) rfl

/-- C6: `With f` equals the spec-side composition (fresh builder, run `f`,
`Get` the returned body), and any failure inside `f` propagates. -/
theorem C6_with_refines_spec (f : LetList → Nat → Option (Expr × LetList × Nat)) (a : Nat) :
    LetList.With f a = With_specModel f a ∧
    (f LetList.fresh a = none → LetList.With f a = none) := by
  constructor
  · rw [LetList.With, With_specModel]
    cases hf : f LetList.fresh a with
    | none => rfl
    | some r =>
      obtain ⟨body, ll, a1⟩ := r
      cases hg : ll.Get body <;> simp [hg]
  · intro hf
    rw [LetList.With, hf]

/-- Witness for C6 at a concrete failing operation. -/
theorem C6_with_refines_spec_witness :
    LetList.With fNone 0 = With_specModel fNone 0 ∧ LetList.With fNone 0 = none :=
  ⟨(C6_with_refines_spec fNone 0).1, (C6_with_refines_spec fNone 0).2 rfl⟩

/-- Stripping `k ≤ N` outer lets from the nested-let expression leaves the
nesting of the remaining bindings. -/
theorem peel_nestLets (k : Nat) (bs : List (Var × Expr)) (body : Expr) (h : k ≤ bs.length) :
    peel k (nestLets bs body) = nestLets (bs.drop k) body := by
  induction k generalizing bs with
  | zero => simp [peel]
  | succ k ih =>
    cases bs with
    | nil => simp at h
    | cons b bs =>
      have hb : nestLets (b :: bs) body = Expr.letE b.1 b.2 (nestLets bs body) := rfl
      rw [hb, peel, List.drop_succ_cons]
      exact ih bs (Nat.le_of_succ_le_succ h)

/-- The `k`-th outermost let of the nested-let expression binds the `k`-th
pushed binding. -/
theorem headLet_peel_nestLets (k : Nat) (bs : List (Var × Expr)) (body : Expr)
    (h : k < bs.length) :
    headLet (peel k (nestLets bs body)) = bs.get? k := by
  rw [peel_nestLets k bs body (Nat.le_of_lt h), List.get?_eq_getElem?,
    List.getElem?_eq_getElem h, List.drop_eq_getElem_cons h]
  rfl

/-- C1: pushing the bindings `bs` in order on a fresh open builder and then
calling `Get body` yields exactly the `bs.length`-fold nested-let expression
with `body` innermost, where the `k`-th pushed binding is the `k`-th
outermost let. -/
theorem C1_get_nests_in_push_order (bs : List (Var × Expr)) (body : Expr) :
    ∃ ll, pushAll bs LetList.fresh = some ll ∧
      ll.Get body = some (nestLets bs body, ⟨bs, true⟩) ∧
      (∀ k, k < bs.length → headLet (peel k (nestLets bs body)) = bs.get? k) ∧
      peel bs.length (nestLets bs body) = body := by
  refine ⟨⟨bs, false⟩, ?_, ?_, ?_, ?_⟩
  · simpa using pushAll_open bs LetList.fresh rfl
  · simpa using LetList.Get_open ⟨bs, false⟩ body rfl
  · intro k hk
    exact headLet_peel_nestLets k bs body hk
  · rw [peel_nestLets bs.length bs body (Nat.le_refl _)]
    simp [nestLets]

/-- Witness for C1 at a concrete two-binding sequence. -/
theorem C1_get_nests_in_push_order_witness :
    ∃ ll, pushAll [(anonVar 0, Expr.atom 0), (anonVar 1, Expr.atom 1)] LetList.fresh
        = some ll ∧
      ll.Get (Expr.atom 9)
        = some (nestLets [(anonVar 0, Expr.atom 0), (anonVar 1, Expr.atom 1)] (Expr.atom 9),
            ⟨[(anonVar 0, Expr.atom 0), (anonVar 1, Expr.atom 1)], true⟩) ∧
      (∀ k, k < [(anonVar 0, Expr.atom 0), (anonVar 1, Expr.atom 1)].length →
        headLet (peel k (nestLets [(anonVar 0, Expr.atom 0), (anonVar 1, Expr.atom 1)]
          (Expr.atom 9)))
          = [(anonVar 0, Expr.atom 0), (anonVar 1, Expr.atom 1)].get? k) ∧
      peel [(anonVar 0, Expr.atom 0), (anonVar 1, Expr.atom 1)].length
        (nestLets [(anonVar 0, Expr.atom 0), (anonVar 1, Expr.atom 1)] (Expr.atom 9))
        = Expr.atom 9 :=
  C1_get_nests_in_push_order [(anonVar 0, Expr.atom 0), (anonVar 1, Expr.atom 1)]
    (Expr.atom 9)

/-- A single anonymous untyped push on an open builder synthesizes the
variable with the current allocator identity, name `"x"` and no type. -/
theorem LetList.PushExpr_open (ll : LetList) (e : Expr) (a : Nat)
    (h : ll.used_ = false) :
    ll.PushExpr e a
      = some (anonVar a, ⟨ll.lets_ ++ [(anonVar a, e)], false⟩, a + 1) := by
  simp [LetList.PushExpr, LetList.PushType, VarNode.make, anonVar,
    LetList.Push_open ll _ _ h]

/-- Running `n` anonymous pushes on an open builder succeeds and synthesizes
exactly the variables with identities `a, a+1, ..., a+n-1`. -/
theorem pushAnonSeq_open (es : Nat → Expr) (n : Nat) (ll : LetList) (a : Nat)
    (h : ll.used_ = false) :
    ∃ ll2, pushAnonSeq es n ll a
        = some ((List.range' a n).map anonVar, ll2, a + n) ∧
      ll2.used_ = false := by
  induction n generalizing es ll a with
  | zero => exact ⟨ll, by simp [pushAnonSeq], h⟩
  | succ n ih =>
    rw [pushAnonSeq, LetList.PushExpr_open ll (es 0) a h]
    obtain ⟨ll2, h2, hu2⟩ :=
      ih (fun i => es (i + 1)) ⟨ll.lets_ ++ [(anonVar a, es 0)], false⟩ (a + 1) rfl
    refine ⟨ll2, ?_, hu2⟩
    rw [Option.some_bind, h2]
    have hr : List.range' a (n + 1) = a :: List.range' (a + 1) n := rfl
    have ha : a + 1 + n = a + (n + 1) := by omega
    rw [hr, ← ha]
    rfl

/-- C2 counterexample: two successive anonymous pushes on the same fresh
builder synthesize two distinct variables whose name texts are equal (both
`"x"`), so the names do collide, refuting the non-collision part of the
claim. -/
theorem C2_name_collision_counterexample :
    ∃ v1 ll1 a1 v2 ll2 a2,
      LetList.fresh.PushExpr (Expr.atom 0) 0 = some (v1, ll1, a1) ∧
      ll1.PushExpr (Expr.atom 1) a1 = some (v2, ll2, a2) ∧
      v1 ≠ v2 ∧ v1.name_hint = v2.name_hint :=
  ⟨anonVar 0, ⟨[(anonVar 0, Expr.atom 0)], false⟩, 1,
   anonVar 1, ⟨[(anonVar 0, Expr.atom 0), (anonVar 1, Expr.atom 1)], false⟩, 2,
   rfl, rfl, by decide, rfl⟩

/-- C2 (amended): every sequence of `n` anonymous pushes on a fresh builder
succeeds and synthesizes pairwise distinct variables (fresh by node identity,
for arbitrarily many pushes, in particular 1000), though their name texts all
coincide. -/
theorem C2_anon_vars_pairwise_distinct (es : Nat → Expr) (n a : Nat) :
    ∃ vs ll2, pushAnonSeq es n LetList.fresh a = some (vs, ll2, a + n) ∧
      vs.length = n ∧ vs.Nodup := by
  obtain ⟨ll2, h2, _⟩ := pushAnonSeq_open es n LetList.fresh a rfl
  refine ⟨(List.range' a n).map anonVar, ll2, h2, by simp, ?_⟩
  refine List.Nodup.map ?_ (List.nodup_range' a n)
  intro i j hij
  simpa [anonVar] using congrArg Var.id hij

/-- C9: the variables synthesized by `n` anonymous pushes all carry the
identical fixed name text `"x"`, and are distinguished only by node identity:
their identities are exactly `a, a+1, ..., a+n-1`, pairwise distinct. -/
theorem C9_anon_vars_fixed_name_distinct_identity (es : Nat → Expr) (n a : Nat) :
    ∃ vs ll2, pushAnonSeq es n LetList.fresh a = some (vs, ll2, a + n) ∧
      vs.map Var.name_hint = List.replicate n "x" ∧
      vs.map Var.id = List.range' a n ∧
      (vs.map Var.id).Nodup := by
  obtain ⟨ll2, h2, _⟩ := pushAnonSeq_open es n LetList.fresh a rfl
  refine ⟨(List.range' a n).map anonVar, ll2, h2, ?_, ?_, ?_⟩
  · rw [List.map_map]
    have : (Var.name_hint ∘ anonVar) = fun _ => "x" := rfl
    rw [this, List.map_const', List.length_range']
  · rw [List.map_map]
    have : (Var.id ∘ anonVar) = fun i => i := rfl
    rw [this, List.map_id']
  · rw [List.map_map]
    have : (Var.id ∘ anonVar) = fun i => i := rfl
    rw [this, List.map_id']
    exact List.nodup_range' a n

end LetListModel

